import Mathlib

/-!
Verification of the SQL permission validator
(`examples/skillset_scripts/validate_sql.py`; `validate_sql_uds.py` contains a
byte-identical copy of the evaluation logic).

The development shallowly embeds the Python functions `normalize_table_name`,
`extract_sql_info_multi` and `process` as executable Lean definitions, and
proves the behavioural properties claimed by the specification.  The external
SQL parser (sqlglot) is treated as an oracle: its per-statement output is
modelled by `SqlStatement` below and the raw parse outcome is a parameter of
`process`.
-/

namespace ValidateSql

/-! ### Generic list helpers -/

/-- Last element of a list, if any.  Used to state the "last match wins"
behaviour of the evaluator's non-short-circuiting passes. -/
def last? {α : Type} : List α → Option α
  | [] => none
  | a :: l =>
    match last? l with
    | none => some a
    | some b => some b

/-- Filter by a decidable proposition, mirroring Python list/set
comprehensions with a membership condition. -/
def pfilter {α : Type} (P : α → Prop) [DecidablePred P] : List α → List α
  | [] => []
  | a :: l => if P a then a :: pfilter P l else pfilter P l

theorem last?_eq_none {α : Type} (l : List α) : last? l = none ↔ l = [] := by
  cases l with
  | nil => simp [last?]
  | cons a l =>
    simp only [last?]
    cases last? l <;> simp

theorem last?_append {α : Type} (l1 l2 : List α) :
    last? (l1 ++ l2) =
      match last? l2 with
      | none => last? l1
      | some b => some b := by
  induction l1 with
  | nil =>
    simp only [List.nil_append]
    cases last? l2 <;> rfl
  | cons a l1 ih =>
    rw [List.cons_append]
    simp only [last?]
    rw [ih]
    cases last? l2 <;> cases last? l1 <;> rfl

theorem last?_map {α β : Type} (f : α → β) (l : List α) :
    last? (l.map f) = (last? l).map f := by
  induction l with
  | nil => rfl
  | cons a l ih =>
    simp only [List.map_cons, last?, ih]
    cases last? l <;> rfl

theorem last?_mem {α : Type} {l : List α} {a : α} (h : last? l = some a) : a ∈ l := by
  induction l with
  | nil => simp [last?] at h
  | cons b l ih =>
    simp only [last?] at h
    cases hl : last? l with
    | none =>
      rw [hl] at h
      simp only [Option.some.injEq] at h
      subst h
      exact List.mem_cons_self b l
    | some c =>
      rw [hl] at h
      simp only [Option.some.injEq] at h
      subst h
      exact List.mem_cons_of_mem b (ih hl)

theorem mem_pfilter {α : Type} (P : α → Prop) [DecidablePred P] (l : List α) (a : α) :
    a ∈ pfilter P l ↔ a ∈ l ∧ P a := by
  induction l with
  | nil => simp [pfilter]
  | cons b l ih =>
    by_cases hb : P b
    · simp only [pfilter, if_pos hb, List.mem_cons, ih]
      constructor
      · rintro (rfl | ⟨h1, h2⟩)
        · exact ⟨Or.inl rfl, hb⟩
        · exact ⟨Or.inr h1, h2⟩
      · rintro ⟨rfl | h1, h2⟩
        · exact Or.inl rfl
        · exact Or.inr ⟨h1, h2⟩
    · simp only [pfilter, if_neg hb, List.mem_cons, ih]
      constructor
      · rintro ⟨h1, h2⟩; exact ⟨Or.inr h1, h2⟩
      · rintro ⟨rfl | h1, h2⟩
        · exact absurd h2 hb
        · exact ⟨h1, h2⟩

theorem pfilter_nil_of_nil {α : Type} (P : α → Prop) [DecidablePred P] :
    pfilter P ([] : List α) = [] := rfl

/-- A left fold that overwrites its state whenever the element satisfies `P`
computes the value of the last satisfying element: the core shape of both
the deny pass and the allow pass of the evaluator. -/
theorem foldl_overwrite {α σ : Type} (P : α → Prop) [DecidablePred P]
    (g : α → σ) (l : List α) (s : σ) :
    l.foldl (fun s1 t => if P t then g t else s1) s =
      match last? (pfilter P l) with
      | none => s
      | some t => g t := by
  induction l generalizing s with
  | nil => rfl
  | cons a l ih =>
    rw [List.foldl_cons, ih]
    by_cases h : P a
    · simp only [pfilter, if_pos h, last?]
      cases last? (pfilter P l) <;> simp
    · simp only [pfilter, if_neg h]

/-! ### Characters and strings

The Python code uses `str.lower`, `str.upper`, `str.split(".")` and
`str.strip('"')`.  Identifiers in this code base are ASCII, so lower/upper
casing is modelled on the 26 ASCII letters. -/

/-- ASCII lower-casing of one character (Python `str.lower`, restricted to
the ASCII range actually exercised by SQL identifiers). -/
def lowerChar (c : Char) : Char :=
  match c with
  | 'A' => 'a' | 'B' => 'b' | 'C' => 'c' | 'D' => 'd' | 'E' => 'e' | 'F' => 'f'
  | 'G' => 'g' | 'H' => 'h' | 'I' => 'i' | 'J' => 'j' | 'K' => 'k' | 'L' => 'l'
  | 'M' => 'm' | 'N' => 'n' | 'O' => 'o' | 'P' => 'p' | 'Q' => 'q' | 'R' => 'r'
  | 'S' => 's' | 'T' => 't' | 'U' => 'u' | 'V' => 'v' | 'W' => 'w' | 'X' => 'x'
  | 'Y' => 'y' | 'Z' => 'z'
  | c => c

/-- ASCII upper-casing of one character (Python `str.upper`). -/
def upperChar (c : Char) : Char :=
  match c with
  | 'a' => 'A' | 'b' => 'B' | 'c' => 'C' | 'd' => 'D' | 'e' => 'E' | 'f' => 'F'
  | 'g' => 'G' | 'h' => 'H' | 'i' => 'I' | 'j' => 'J' | 'k' => 'K' | 'l' => 'L'
  | 'm' => 'M' | 'n' => 'N' | 'o' => 'O' | 'p' => 'P' | 'q' => 'Q' | 'r' => 'R'
  | 's' => 'S' | 't' => 'T' | 'u' => 'U' | 'v' => 'V' | 'w' => 'W' | 'x' => 'X'
  | 'y' => 'Y' | 'z' => 'Z'
  | c => c

/-- Python `s.lower()`. -/
def lowerStr (s : String) : String := ⟨s.data.map lowerChar⟩

/-- Python `s.upper()`. -/
def upperStr (s : String) : String := ⟨s.data.map upperChar⟩

/-- Python `s.split(".")` on the character list: always returns a non-empty
list of (possibly empty) segments. -/
def splitOnDot : List Char → List (List Char)
  | [] => [[]]
  | c :: cs =>
    let r := splitOnDot cs
    if c = '.' then
      [] :: r
    else
      match r with
      | [] => [[c]]
      | s :: rest => (c :: s) :: rest

/-- Python `s.strip('"')`: remove every leading and trailing double-quote
character. -/
def stripQuotes (l : List Char) : List Char :=
  ((l.dropWhile (fun c => c = '"')).reverse.dropWhile (fun c => c = '"')).reverse

/-- Embedding of `normalize_table_name` (validate_sql.py lines 35-37):
`table.lower().split(".")[-1].strip('"')`. -/
def normalize_table_name (t : String) : String :=
  ⟨stripQuotes ((splitOnDot (t.data.map lowerChar)).getLastD [])⟩

/-- The specification's description of normalization: "drop any
schema/qualifier prefix (retain only the final dot-separated segment),
lower-case the result, strip surrounding quote characters".  Stated from the
spec's words, to be compared with the source's `normalize_table_name`. -/
def normalizeSpec (t : String) : String :=
  ⟨stripQuotes (((splitOnDot t.data).getLastD []).map lowerChar)⟩

theorem lowerChar_dot : lowerChar '.' = '.' := rfl

theorem lowerChar_ne_dot (c : Char) (h : c ≠ '.') : lowerChar c ≠ '.' := by
  unfold lowerChar
  split <;> first | decide | exact h

theorem splitOnDot_ne_nil (l : List Char) : splitOnDot l ≠ [] := by
  cases l with
  | nil => simp [splitOnDot]
  | cons c cs =>
    simp only [splitOnDot]
    split
    · simp
    · split <;> simp

theorem splitOnDot_map_lowerChar (l : List Char) :
    splitOnDot (l.map lowerChar) = (splitOnDot l).map (List.map lowerChar) := by
  induction l with
  | nil => rfl
  | cons c cs ih =>
    by_cases hc : c = '.'
    · subst hc
      simp [List.map_cons, lowerChar_dot, splitOnDot, ih]
    · have h2 : lowerChar c ≠ '.' := lowerChar_ne_dot c hc
      obtain ⟨s, rest, hsr⟩ := List.exists_cons_of_ne_nil (splitOnDot_ne_nil cs)
      simp only [List.map_cons, splitOnDot, if_neg hc, if_neg h2, ih, hsr, List.map_cons]

theorem getLastD_map_lowerChar (l : List (List Char)) (d : List Char) :
    (l.map (List.map lowerChar)).getLastD (d.map lowerChar) =
      (l.getLastD d).map lowerChar := by
  induction l generalizing d with
  | nil => rfl
  | cons a l ih =>
    rw [List.map_cons, List.getLastD_cons, List.getLastD_cons, ih]

/-- The source normalizer agrees with the specification's description for
every identifier string. -/
theorem normalize_eq_normalizeSpec (t : String) :
    normalize_table_name t = normalizeSpec t := by
  unfold normalize_table_name normalizeSpec
  rw [splitOnDot_map_lowerChar]
  have h := getLastD_map_lowerChar (splitOnDot t.data) []
  simp only [List.map_nil] at h
  rw [h]

/-! ### Sorting (Python `sorted` on strings) -/

/-- Insert a string into a sorted list (ascending). -/
def insertSorted (s : String) : List String → List String
  | [] => [s]
  | t :: ts => if s ≤ t then s :: t :: ts else t :: insertSorted s ts

/-- Python `sorted` on a list of strings (insertion sort). -/
def sortStrings (l : List String) : List String :=
  l.foldr insertSorted []

theorem mem_insertSorted (s a : String) (l : List String) :
    a ∈ insertSorted s l ↔ a = s ∨ a ∈ l := by
  induction l with
  | nil => simp [insertSorted]
  | cons t ts ih =>
    simp only [insertSorted]
    split
    · simp
    · simp only [List.mem_cons, ih]
      tauto

theorem mem_sortStrings (a : String) (l : List String) :
    a ∈ sortStrings l ↔ a ∈ l := by
  induction l with
  | nil => simp [sortStrings]
  | cons t ts ih =>
    simp only [sortStrings, List.foldr_cons] at ih ⊢
    rw [mem_insertSorted, ih, List.mem_cons]

/-! ### Data model -/

/-- A statement descriptor: the flat summary of one parsed SQL statement
produced by `extract_sql_info_multi` (one dict per statement; `type` is
`None` exactly when parsing failed, and `error` carries the parser's
message). -/
structure StmtDescriptor where
  type : Option String
  tables : List String
  ctes : List String
  error : Option String
deriving Repr, DecidableEq

/-- A per-statement decision (the `stmt_detail` dict built by `process`). -/
structure StmtDecision where
  type : Option String
  tables : List String
  ctes : List String
  allowed : Bool
  denied : Bool
  reason : Option String
deriving Repr, DecidableEq

/-- The `sql_permissions` context document: `allow` and `deny` maps from an
action key to a list of table names.  Python dicts preserve insertion order,
so each map is an ordered association list. -/
structure Policy where
  allow : List (String × List String)
  deny : List (String × List String)
deriving Repr, DecidableEq

/-- Python `d.get(k)` on an ordered association list. -/
def dictGet (d : List (String × List String)) (k : String) : Option (List String) :=
  (d.find? (fun e => e.1 = k)).map (fun e => e.2)

/-! ### The external parser's output (sqlglot), and the extractor

The SQL parser is an external collaborator.  Modelled from the spec: the
parser "exposes table references, CTE definitions, and statement verbs".  A
table reference node (sqlglot `expressions.Table`) carries its optional
catalog and schema qualifiers and its quoting flag separately from its bare
name; `find_all` walks the entire statement tree, including subqueries and
CTE bodies. -/
structure TableRef where
  catalog : String
  db : String
  name : String
  quoted : Bool
deriving Repr, DecidableEq

/-- Modelled from the spec: the statement tree exposed by the external
parser.  Every node has children; table references are leaves. -/
inductive SqlExpr where
  | table (t : TableRef) : SqlExpr
  | node (children : List SqlExpr) : SqlExpr

mutual

/-- Modelled from the spec: `stmt.find_all(expressions.Table)` — every table
reference anywhere in the tree, in traversal order. -/
def findTables : SqlExpr → List TableRef
  | .table t => [t]
  | .node cs => findTablesList cs

/-- Table references of a list of subtrees, in order. -/
def findTablesList : List SqlExpr → List TableRef
  | [] => []
  | e :: es => findTables e ++ findTablesList es

end

/-- Modelled from the spec: one parsed statement as exposed by the external
parser: its verb (`stmt.key`, lower-case), the aliases of its CTEs
(`cte.alias_or_name` for each `cte` in `stmt.ctes`), and the statement
tree. -/
structure SqlStatement where
  key : String
  cteAliases : List String
  body : SqlExpr

/-- Modelled from the spec: the verbatim text of a table reference as it
appears in the SQL ("schema-qualified, original case, possibly quoted").
Stated from the spec's words, to be compared with what the extractor
records. -/
def verbatimName (t : TableRef) : String :=
  (if t.catalog = "" then "" else t.catalog ++ ".") ++
    (if t.db = "" then "" else t.db ++ ".") ++
    (if t.quoted then "\"" ++ t.name ++ "\"" else t.name)

/-- Embedding of the per-statement body of `extract_sql_info_multi`
(validate_sql.py lines 14-27): `stmt_type = stmt.key.upper()`, the CTE alias
set, and `tables = sorted({table.name for table in
stmt.find_all(expressions.Table)})`. -/
def extractStmt (stmt : SqlStatement) : StmtDescriptor :=
  { type := some (upperStr stmt.key)
    tables := sortStrings (((findTables stmt.body).map (fun t => t.name)).dedup)
    ctes := sortStrings (stmt.cteAliases.dedup)
    error := none }

/-- Embedding of `extract_sql_info_multi` (validate_sql.py lines 9-32): the
argument is the outcome of the external `sqlglot.parse` call; on failure a
single descriptor with no type, empty tables and ctes, and the exception's
message is produced. -/
def extract_sql_info_multi (parsed : Except String (List SqlStatement)) :
    List StmtDescriptor :=
  match parsed with
  | .ok statements => statements.map extractStmt
  | .error e => [{ type := none, tables := [], ctes := [], error := some e }]

/-! ### The evaluator (`process`, validate_sql.py lines 40-122) -/

/-- The f-string `f"Denied by deny.{deny_action} for table {table}"`. -/
def denyReasonStr (action table : String) : String :=
  "Denied by deny." ++ action ++ " for table " ++ table

/-- The f-string `f"Table {table} not allowed for {stmt_type}"`. -/
def allowReasonStr (table ty : String) : String :=
  "Table " ++ table ++ " not allowed for " ++ ty

/-- The batch accumulators of `process`: the `details` list and the
module-level `denied` / `deny_reason` variables. -/
structure EvalState where
  details : List StmtDecision
  denied : Bool
  denyReason : Option String
deriving Repr, DecidableEq

/-- State threaded through the two passes of one statement: the mutable
`stmt_detail` dict together with the batch `denied` and `deny_reason`
variables, all of which are written at each violation. -/
abbrev StmtState := StmtDecision × Bool × Option String

/-- `real_tables = [t for t in tables if t not in ctes]`
(validate_sql.py line 86). -/
def realTablesOf (stmt : StmtDescriptor) : List String :=
  pfilter (fun t => t ∉ stmt.ctes) stmt.tables

/-- The initial `stmt_detail` dict of a parsed statement
(validate_sql.py lines 76-83). -/
def baseDecision (ty : String) (stmt : StmtDescriptor) : StmtDecision :=
  { type := some ty
    tables := stmt.tables
    ctes := stmt.ctes
    allowed := true
    denied := false
    reason := none }

/-- The `stmt_detail` dict after a deny match (validate_sql.py lines 95-99):
only `allowed`, `denied` and `reason` are overwritten; the identifying
fields are those of the enclosing statement's dict, which the passes never
modify. -/
def mkDenied (base : StmtDecision) (action table : String) : StmtDecision :=
  { base with
    allowed := false
    denied := true
    reason := some (denyReasonStr action table) }

/-- The `stmt_detail` dict after an allow violation (validate_sql.py lines
112-113): `allowed` and `reason` are overwritten; `denied` is not touched. -/
def mkNotAllowed (base : StmtDecision) (table ty : String) : StmtDecision :=
  { base with allowed := false, reason := some (allowReasonStr table ty) }

/-- The deny pass (validate_sql.py lines 89-101): iterate over every deny
rule; for a rule whose key is `"all"` or lower-cases to the statement type,
check each real table's normalized name against the rule's normalized table
set, overwriting the decision, the batch `denied` flag and the batch reason
at every match.  Never short-circuits. -/
def denyPass (ty : String) (base : StmtDecision) (realTables : List String)
    (deny : List (String × List String)) (s : StmtState) : StmtState :=
  deny.foldl (fun s1 e =>
    if e.1 = "all" ∨ lowerStr e.1 = lowerStr ty then
      realTables.foldl (fun s2 t =>
        if normalize_table_name t ∈ e.2.map normalize_table_name then
          (mkDenied base e.1 t, true, some (denyReasonStr e.1 t))
        else s2) s1
    else s1) s

/-- `allowedSet = normalize(allow[type.lower()]) ∪ normalize(allow["all"])`
(validate_sql.py lines 104-108); a missing key contributes the empty set. -/
def allowSet (allow : List (String × List String)) (ty : String) : List String :=
  ((dictGet allow (lowerStr ty)).getD []).map normalize_table_name ++
    ((dictGet allow "all").getD []).map normalize_table_name

/-- The allow pass (validate_sql.py lines 109-115): every real table whose
normalized name is not in the allowed set overwrites the decision, the batch
`denied` flag and the batch reason.  Never short-circuits. -/
def allowPass (ty : String) (base : StmtDecision) (allowedSet realTables : List String)
    (s : StmtState) : StmtState :=
  realTables.foldl (fun s2 t =>
    if normalize_table_name t ∉ allowedSet then
      (mkNotAllowed base t ty, true, some (allowReasonStr t ty))
    else s2) s

/-- The body of the `for stmt in stmts` loop of `process`
(validate_sql.py lines 58-116). -/
def processStmt (allow deny : List (String × List String))
    (st : EvalState) (stmt : StmtDescriptor) : EvalState :=
  match stmt.type with
  | none =>
    let d : StmtDecision :=
      { type := none
        tables := stmt.tables
        ctes := stmt.ctes
        allowed := false
        denied := true
        reason := some (stmt.error.getD "SQL parse error") }
    { details := st.details ++ [d], denied := true, denyReason := d.reason }
  | some ty =>
    let realTables := realTablesOf stmt
    let base := baseDecision ty stmt
    let s1 := denyPass ty base realTables deny (base, st.denied, st.denyReason)
    let s2 :=
      if s1.1.denied then s1
      else allowPass ty base (allowSet allow ty) realTables s1
    { details := st.details ++ [s2.1], denied := s2.2.1, denyReason := s2.2.2 }

/-- The decision recorded for a single statement descriptor: the detail
appended by the loop body, which is independent of the batch accumulators. -/
def evalStmt (allow deny : List (String × List String))
    (stmt : StmtDescriptor) : StmtDecision :=
  (processStmt allow deny { details := [], denied := false, denyReason := none }
      stmt).details.getLastD
    { type := none
      tables := []
      ctes := []
      allowed := false
      denied := false
      reason := none }

/-- The value returned by `process` after evaluation (validate_sql.py lines
118-122). -/
structure EvalOutput where
  allowed : Bool
  details : List StmtDecision
  reason : Option String
deriving Repr, DecidableEq

/-- The evaluation loop plus the final result construction
(validate_sql.py lines 54-122). -/
def evalStmts (allow deny : List (String × List String))
    (stmts : List StmtDescriptor) : EvalOutput :=
  let fin := stmts.foldl (processStmt allow deny)
    { details := [], denied := false, denyReason := none }
  { allowed := !fin.denied
    details := fin.details
    reason := if fin.denied then fin.denyReason else some "All statements allowed" }

/-- The mapping returned by `process`: on the two early-return guards no
`details` key is present at all, hence `details` is optional here. -/
structure ProcessResult where
  allowed : Bool
  details : Option (List StmtDecision)
  reason : Option String
deriving Repr, DecidableEq

/-- Embedding of `process` (validate_sql.py lines 40-122).  `parseFn` stands
for the external `sqlglot.parse` call; `input_sql` is `input_args.get("sql")`
(`None` when the key is absent or null) and `sql_permissions` is the policy
context (`None` when absent).  Python's `if not sql` is true exactly when
`sql` is `None` or the empty string. -/
def process (parseFn : String → Except String (List SqlStatement))
    (input_sql : Option String) (sql_permissions : Option Policy) : ProcessResult :=
  match input_sql with
  | none => { allowed := false, details := none, reason := some "No SQL provided" }
  | some s =>
    if s = "" then
      { allowed := false, details := none, reason := some "No SQL provided" }
    else
      match sql_permissions with
      | none =>
        { allowed := false
          details := none
          reason := some "No sql-permissions context provided" }
      | some perms =>
        let out := evalStmts perms.allow perms.deny
          (extract_sql_info_multi (parseFn s))
        { allowed := out.allowed, details := some out.details, reason := out.reason }

/-! ### Characterization of the two passes -/

/-- The deny matches of one statement, in evaluation order: for each deny
rule (in policy order) that applies to the statement type, the real tables
(in order) whose normalized name is in the rule's normalized table set. -/
def denyMatchList (ty : String) (realTables : List String) :
    List (String × List String) → List (String × String)
  | [] => []
  | e :: rest =>
    (if e.1 = "all" ∨ lowerStr e.1 = lowerStr ty then
      (pfilter (fun t => normalize_table_name t ∈ e.2.map normalize_table_name)
        realTables).map (fun t => (e.1, t))
    else []) ++ denyMatchList ty realTables rest

/-- The allow-pass violations of one statement, in evaluation order: the
real tables whose normalized name is not in the allowed set. -/
def allowViolations (allow : List (String × List String)) (ty : String)
    (realTables : List String) : List String :=
  pfilter (fun t => normalize_table_name t ∉ allowSet allow ty) realTables

/-- The deny pass computes the decision of the last deny match (and leaves
the state unchanged when there is none). -/
theorem denyPass_eq (ty : String) (base : StmtDecision) (realTables : List String)
    (deny : List (String × List String)) (s : StmtState) :
    denyPass ty base realTables deny s =
      match last? (denyMatchList ty realTables deny) with
      | none => s
      | some p => (mkDenied base p.1 p.2, true, some (denyReasonStr p.1 p.2)) := by
  induction deny generalizing s with
  | nil => rfl
  | cons e rest ih =>
    have hstep : denyPass ty base realTables (e :: rest) s =
        denyPass ty base realTables rest
          (if e.1 = "all" ∨ lowerStr e.1 = lowerStr ty then
            realTables.foldl (fun s2 t =>
              if normalize_table_name t ∈ e.2.map normalize_table_name then
                (mkDenied base e.1 t, true, some (denyReasonStr e.1 t))
              else s2) s
          else s) := rfl
    rw [hstep, ih]
    simp only [denyMatchList]
    rw [last?_append]
    by_cases happ : e.1 = "all" ∨ lowerStr e.1 = lowerStr ty
    · rw [if_pos happ, if_pos happ]
      rw [foldl_overwrite
        (fun t => normalize_table_name t ∈ e.2.map normalize_table_name)
        (fun t => (mkDenied base e.1 t, true, some (denyReasonStr e.1 t)))
        realTables s]
      rw [last?_map]
      cases last? (denyMatchList ty realTables rest) with
      | some p => rfl
      | none =>
        cases last? (pfilter
            (fun t => normalize_table_name t ∈ e.2.map normalize_table_name)
            realTables) with
        | none => rfl
        | some t => rfl
    · rw [if_neg happ, if_neg happ]
      cases last? (denyMatchList ty realTables rest) with
      | none => rfl
      | some p => rfl

/-- The allow pass computes the decision of the last violation (and leaves
the state unchanged when there is none). -/
theorem allowPass_eq (ty : String) (base : StmtDecision)
    (allow : List (String × List String)) (realTables : List String) (s : StmtState) :
    allowPass ty base (allowSet allow ty) realTables s =
      match last? (allowViolations allow ty realTables) with
      | none => s
      | some t => (mkNotAllowed base t ty, true, some (allowReasonStr t ty)) := by
  unfold allowPass allowViolations
  rw [foldl_overwrite (fun t => normalize_table_name t ∉ allowSet allow ty)
    (fun t => (mkNotAllowed base t ty, true, some (allowReasonStr t ty)))]
  cases last? (pfilter (fun t => normalize_table_name t ∉ allowSet allow ty) realTables) with
  | none => rfl
  | some t => rfl

/-- Closed form of the decision for one statement, derived from the source
embedding in `evalStmt_eq_alt`: a parse error is denied with the parser's
message; otherwise the last deny match wins; otherwise the last allow
violation wins; otherwise the statement is allowed. -/
def evalStmtAlt (allow deny : List (String × List String))
    (stmt : StmtDescriptor) : StmtDecision :=
  match stmt.type with
  | none =>
    { type := none
      tables := stmt.tables
      ctes := stmt.ctes
      allowed := false
      denied := true
      reason := some (stmt.error.getD "SQL parse error") }
  | some ty =>
    match last? (denyMatchList ty (realTablesOf stmt) deny) with
    | some p => mkDenied (baseDecision ty stmt) p.1 p.2
    | none =>
      match last? (allowViolations allow ty (realTablesOf stmt)) with
      | some t => mkNotAllowed (baseDecision ty stmt) t ty
      | none => baseDecision ty stmt

/-- One iteration of the statement loop: it appends the statement's decision
and updates the batch `denied` flag and batch reason exactly when the
decision is not allowed. -/
theorem processStmt_eq (allow deny : List (String × List String))
    (st : EvalState) (stmt : StmtDescriptor) :
    processStmt allow deny st stmt =
      { details := st.details ++ [evalStmtAlt allow deny stmt]
        denied := st.denied || !(evalStmtAlt allow deny stmt).allowed
        denyReason :=
          if (evalStmtAlt allow deny stmt).allowed then st.denyReason
          else (evalStmtAlt allow deny stmt).reason } := by
  cases hty : stmt.type with
  | none =>
    simp [processStmt, evalStmtAlt, hty]
  | some ty =>
    simp only [processStmt, evalStmtAlt, hty]
    rw [denyPass_eq]
    cases hM : last? (denyMatchList ty (realTablesOf stmt) deny) with
    | some p =>
      simp [mkDenied]
    | none =>
      simp only []
      have hbase : (baseDecision ty stmt).denied = false := rfl
      rw [if_neg (by simp [hbase])]
      rw [allowPass_eq]
      cases hV : last? (allowViolations allow ty (realTablesOf stmt)) with
      | some t =>
        simp [mkNotAllowed, mkDenied, baseDecision]
      | none =>
        simp [baseDecision]

/-- The recorded decision agrees with the closed form. -/
theorem evalStmt_eq_alt (allow deny : List (String × List String))
    (stmt : StmtDescriptor) :
    evalStmt allow deny stmt = evalStmtAlt allow deny stmt := by
  rw [evalStmt, processStmt_eq]
  simp

/-- Characterization of the whole evaluation fold: the details are the
per-statement decisions in input order; the batch `denied` flag records
whether any decision is not allowed; the batch reason records the reason of
the last decision that is not allowed. -/
theorem foldl_processStmt_eq (allow deny : List (String × List String))
    (stmts : List StmtDescriptor) (st : EvalState) :
    stmts.foldl (processStmt allow deny) st =
      { details := st.details ++ stmts.map (evalStmtAlt allow deny)
        denied := st.denied ||
          (stmts.map (evalStmtAlt allow deny)).any (fun d => !d.allowed)
        denyReason :=
          match last? (pfilter (fun d => d.allowed = false)
              (stmts.map (evalStmtAlt allow deny))) with
          | none => st.denyReason
          | some d => d.reason } := by
  induction stmts generalizing st with
  | nil => simp [pfilter, last?]
  | cons s0 stmts ih =>
    rw [List.foldl_cons, ih, processStmt_eq]
    simp only [List.map_cons, List.any_cons, EvalState.mk.injEq]
    refine ⟨by simp, by rw [Bool.or_assoc], ?_⟩
    by_cases hA : (evalStmtAlt allow deny s0).allowed
    · have hP : ¬ ((evalStmtAlt allow deny s0).allowed = false) := by
        simp [hA]
      simp only [pfilter, if_neg hP, if_pos hA]
    · have hP : (evalStmtAlt allow deny s0).allowed = false :=
        Bool.eq_false_iff.mpr hA
      simp only [pfilter, if_pos hP, if_neg hA, last?]
      cases last? (pfilter (fun d => d.allowed = false)
          (stmts.map (evalStmtAlt allow deny))) with
      | none => rfl
      | some d => rfl

theorem pfilter_ne_nil_iff {α : Type} (P : α → Prop) [DecidablePred P] (l : List α) :
    pfilter P l ≠ [] ↔ ∃ a ∈ l, P a := by
  constructor
  · intro h
    obtain ⟨a, ha⟩ := List.exists_mem_of_ne_nil _ h
    obtain ⟨h1, h2⟩ := (mem_pfilter P l a).1 ha
    exact ⟨a, h1, h2⟩
  · rintro ⟨a, h1, h2⟩
    exact List.ne_nil_of_mem ((mem_pfilter P l a).2 ⟨h1, h2⟩)

theorem pfilter_eq_nil_iff {α : Type} (P : α → Prop) [DecidablePred P] (l : List α) :
    pfilter P l = [] ↔ ∀ a ∈ l, ¬ P a := by
  rw [← not_iff_not, ← ne_eq, pfilter_ne_nil_iff]
  push_neg
  simp

/-- The deny-match list is non-empty exactly when some deny rule applies to
the statement type and normalizes-in one of the real tables. -/
theorem denyMatchList_ne_nil_iff (ty : String) (realTables : List String)
    (deny : List (String × List String)) :
    denyMatchList ty realTables deny ≠ [] ↔
      ∃ e ∈ deny, (e.1 = "all" ∨ lowerStr e.1 = lowerStr ty) ∧
        ∃ t ∈ realTables,
          normalize_table_name t ∈ e.2.map normalize_table_name := by
  induction deny with
  | nil => simp [denyMatchList]
  | cons e rest ih =>
    simp only [denyMatchList, ne_eq, List.append_eq_nil, not_and, List.exists_mem_cons_iff]
    rw [← ih]
    by_cases happ : e.1 = "all" ∨ lowerStr e.1 = lowerStr ty
    · rw [if_pos happ]
      constructor
      · intro h
        by_cases hmap :
            (pfilter (fun t => normalize_table_name t ∈ e.2.map normalize_table_name)
              realTables).map (fun t => (e.1, t)) = []
        · exact Or.inr (by simpa [ne_eq] using h hmap)
        · rw [List.map_eq_nil_iff] at hmap
          obtain ⟨t, h1, h2⟩ := (pfilter_ne_nil_iff _ _).1 hmap
          exact Or.inl ⟨happ, t, h1, h2⟩
      · rintro (⟨_, t, h1, h2⟩ | h)
        · intro hmap
          rw [List.map_eq_nil_iff, pfilter_eq_nil_iff] at hmap
          exact absurd h2 (hmap t h1)
        · intro _
          simpa [ne_eq] using h
    · rw [if_neg happ]
      simp only [List.nil_append]
      constructor
      · intro h
        exact Or.inr (by simpa [ne_eq] using h trivial)
      · rintro (⟨h1, _⟩ | h)
        · exact absurd h1 happ
        · intro _
          simpa [ne_eq] using h

/-- With no real tables there are no deny matches. -/
theorem denyMatchList_nil (ty : String) (deny : List (String × List String)) :
    denyMatchList ty [] deny = [] := by
  induction deny with
  | nil => rfl
  | cons e rest ih =>
    simp only [denyMatchList, ih, List.append_nil]
    split <;> rfl

/-- The details of the evaluation are the per-statement decisions, one per
input descriptor, in input order. -/
theorem evalStmts_details (allow deny : List (String × List String))
    (stmts : List StmtDescriptor) :
    (evalStmts allow deny stmts).details = stmts.map (evalStmt allow deny) := by
  unfold evalStmts
  rw [foldl_processStmt_eq]
  simp only [List.nil_append]
  exact (List.map_congr_left (fun s _ => (evalStmt_eq_alt allow deny s).symm))

/-- The overall allowed flag is the conjunction of the per-statement allowed
flags. -/
theorem evalStmts_allowed (allow deny : List (String × List String))
    (stmts : List StmtDescriptor) :
    (evalStmts allow deny stmts).allowed =
      (stmts.map (evalStmt allow deny)).all (fun d => d.allowed) := by
  unfold evalStmts
  rw [foldl_processStmt_eq]
  simp only [Bool.false_or]
  rw [List.all_eq_not_any_not]
  rw [List.map_congr_left (fun s _ => (evalStmt_eq_alt allow deny s))]

/-- When some decision is not allowed, the overall reason is the reason of
the last such decision, in document order. -/
theorem evalStmts_reason_of_last (allow deny : List (String × List String))
    (stmts : List StmtDescriptor) (d : StmtDecision)
    (h : last? (pfilter (fun x => x.allowed = false)
        (stmts.map (evalStmt allow deny))) = some d) :
    (evalStmts allow deny stmts).reason = d.reason := by
  rw [List.map_congr_left (fun s _ => (evalStmt_eq_alt allow deny s))] at h
  have hmem := last?_mem h
  obtain ⟨hmem1, hmem2⟩ := (mem_pfilter _ _ _).1 hmem
  have hany : (stmts.map (evalStmtAlt allow deny)).any (fun x => !x.allowed) = true := by
    rw [List.any_eq_true]
    exact ⟨d, hmem1, by simp [hmem2]⟩
  unfold evalStmts
  rw [foldl_processStmt_eq]
  simp only [Bool.false_or, hany, if_true, h]

/-- When every decision is allowed, the overall reason is the fixed success
message. -/
theorem evalStmts_reason_of_all_allowed (allow deny : List (String × List String))
    (stmts : List StmtDescriptor)
    (h : (stmts.map (evalStmt allow deny)).all (fun d => d.allowed) = true) :
    (evalStmts allow deny stmts).reason = some "All statements allowed" := by
  rw [List.map_congr_left (fun s _ => (evalStmt_eq_alt allow deny s))] at h
  have hany : (stmts.map (evalStmtAlt allow deny)).any (fun x => !x.allowed) = false := by
    rw [List.all_eq_not_any_not] at h
    exact Bool.not_eq_true' .. |>.mp h
  unfold evalStmts
  rw [foldl_processStmt_eq]
  simp [hany]

/-! ### Normalization is what the comparisons consume

Two policies whose declared table lists have the same normalized images are
indistinguishable to the evaluator: every membership comparison happens
after `normalize_table_name` is applied to both sides. -/

theorem dictGet_norm_congr (allow allow2 : List (String × List String))
    (h : allow2.map (fun e => (e.1, e.2.map normalize_table_name)) =
      allow.map (fun e => (e.1, e.2.map normalize_table_name)))
    (k : String) :
    ((dictGet allow2 k).getD []).map normalize_table_name =
      ((dictGet allow k).getD []).map normalize_table_name := by
  induction allow generalizing allow2 with
  | nil =>
    cases allow2 with
    | nil => rfl
    | cons e2 rest2 => simp at h
  | cons e rest ih =>
    cases allow2 with
    | nil => simp at h
    | cons e2 rest2 =>
      simp only [List.map_cons, List.cons.injEq, Prod.mk.injEq] at h
      obtain ⟨⟨h1, h2⟩, h3⟩ := h
      by_cases hk : e.1 = k
      · rw [dictGet, dictGet, List.find?_cons_of_pos, List.find?_cons_of_pos]
        · simpa using h2
        · simpa using hk
        · simpa [h1] using hk
      · rw [dictGet, dictGet, List.find?_cons_of_neg, List.find?_cons_of_neg]
        · exact ih rest2 h3
        · simpa using hk
        · simpa [h1] using hk

theorem allowSet_norm_congr (allow allow2 : List (String × List String))
    (h : allow2.map (fun e => (e.1, e.2.map normalize_table_name)) =
      allow.map (fun e => (e.1, e.2.map normalize_table_name)))
    (ty : String) :
    allowSet allow2 ty = allowSet allow ty := by
  unfold allowSet
  rw [dictGet_norm_congr allow allow2 h, dictGet_norm_congr allow allow2 h]

theorem denyMatchList_norm_congr (ty : String) (realTables : List String)
    (deny deny2 : List (String × List String))
    (h : deny2.map (fun e => (e.1, e.2.map normalize_table_name)) =
      deny.map (fun e => (e.1, e.2.map normalize_table_name))) :
    denyMatchList ty realTables deny2 = denyMatchList ty realTables deny := by
  induction deny generalizing deny2 with
  | nil =>
    cases deny2 with
    | nil => rfl
    | cons e2 rest2 => simp at h
  | cons e rest ih =>
    cases deny2 with
    | nil => simp at h
    | cons e2 rest2 =>
      simp only [List.map_cons, List.cons.injEq, Prod.mk.injEq] at h
      obtain ⟨⟨h1, h2⟩, h3⟩ := h
      simp only [denyMatchList]
      rw [h1, h2, ih rest2 h3]

/-- The evaluator's decision depends on the policy only through the
normalized images of its declared table sets (and its keys). -/
theorem evalStmt_norm_congr (allow allow2 deny deny2 : List (String × List String))
    (ty : String) (tables ctes : List String) (err : Option String)
    (hd : deny2.map (fun e => (e.1, e.2.map normalize_table_name)) =
      deny.map (fun e => (e.1, e.2.map normalize_table_name)))
    (ha : allow2.map (fun e => (e.1, e.2.map normalize_table_name)) =
      allow.map (fun e => (e.1, e.2.map normalize_table_name))) :
    evalStmt allow2 deny2 ⟨some ty, tables, ctes, err⟩ =
      evalStmt allow deny ⟨some ty, tables, ctes, err⟩ := by
  rw [evalStmt_eq_alt, evalStmt_eq_alt]
  simp only [evalStmtAlt]
  rw [denyMatchList_norm_congr ty _ deny deny2 hd]
  cases last? (denyMatchList ty (realTablesOf ⟨some ty, tables, ctes, err⟩) deny) with
  | some p => rfl
  | none =>
    simp only []
    unfold allowViolations
    rw [allowSet_norm_congr allow allow2 ha]

/-! ### Claims -/

/-- C1: Deny overrides allow.  For every statement descriptor with a
statement type and every policy, if the normalized name of some real table
(in `tables` but not in `ctes`) is a member of the normalized table set of
an applicable deny rule (key `all`, or key equal to the statement's type up
to case), then the decision has `denied = true` and `allowed = false`, and
the decision does not depend on the allow map at all — so no allow entry can
make the statement allowed. -/
theorem C1_deny_overrides_allow
    (allow allow2 deny : List (String × List String))
    (ty : String) (tables ctes : List String) (err : Option String)
    (e : String × List String) (he : e ∈ deny)
    (happ : e.1 = "all" ∨ lowerStr e.1 = lowerStr ty)
    (t : String) (ht : t ∈ tables) (hcte : t ∉ ctes)
    (hm : normalize_table_name t ∈ e.2.map normalize_table_name) :
    (evalStmt allow deny ⟨some ty, tables, ctes, err⟩).denied = true ∧
    (evalStmt allow deny ⟨some ty, tables, ctes, err⟩).allowed = false ∧
    evalStmt allow deny ⟨some ty, tables, ctes, err⟩ =
      evalStmt allow2 deny ⟨some ty, tables, ctes, err⟩ := by
  have hrt : t ∈ realTablesOf ⟨some ty, tables, ctes, err⟩ :=
    (mem_pfilter _ _ _).2 ⟨ht, hcte⟩
  have hne : denyMatchList ty (realTablesOf ⟨some ty, tables, ctes, err⟩) deny ≠ [] :=
    (denyMatchList_ne_nil_iff _ _ _).2 ⟨e, he, happ, t, hrt, hm⟩
  obtain ⟨p, hp⟩ : ∃ p,
      last? (denyMatchList ty (realTablesOf ⟨some ty, tables, ctes, err⟩) deny) =
        some p := by
    cases hl : last? (denyMatchList ty (realTablesOf ⟨some ty, tables, ctes, err⟩) deny) with
    | none => exact absurd ((last?_eq_none _).1 hl) hne
    | some p => exact ⟨p, rfl⟩
  rw [evalStmt_eq_alt, evalStmt_eq_alt]
  simp only [evalStmtAlt, hp]
  refine ⟨?_, ?_, ?_⟩ <;> trivial

/-- C1 witness: a table in both `allow["select"]` and `deny["all"]` is
denied, and removing the whole allow map does not change the decision. -/
theorem C1_witness :
    (evalStmt [("select", ["t"])] [("all", ["t"])]
        ⟨some "SELECT", ["t"], [], none⟩).denied = true ∧
    (evalStmt [("select", ["t"])] [("all", ["t"])]
        ⟨some "SELECT", ["t"], [], none⟩).allowed = false ∧
    evalStmt [("select", ["t"])] [("all", ["t"])] ⟨some "SELECT", ["t"], [], none⟩ =
      evalStmt [] [("all", ["t"])] ⟨some "SELECT", ["t"], [], none⟩ :=
  C1_deny_overrides_allow [("select", ["t"])] [] [("all", ["t"])] "SELECT" ["t"] []
    none ("all", ["t"]) (by decide) (Or.inl rfl) "t" (by decide) (by decide) (by decide)

/-- C2 counterexample: key matching is not case-insensitive in the code.  A
deny rule keyed `"ALL"` does not apply (the wildcard comparison
`deny_action == "all"` is case-sensitive), so a statement the claim predicts
to be denied is allowed; and an allow entry keyed `"SELECT"` is never found
(the lookup uses the exactly-lowercased statement type), so a statement the
claim predicts to be allowed is not. -/
theorem C2_counterexample :
    (evalStmt [("select", ["t"])] [("ALL", ["t"])]
        ⟨some "SELECT", ["t"], [], none⟩).denied = false ∧
    (evalStmt [("select", ["t"])] [("ALL", ["t"])]
        ⟨some "SELECT", ["t"], [], none⟩).allowed = true ∧
    (evalStmt [("SELECT", ["t"])] []
        ⟨some "SELECT", ["t"], [], none⟩).allowed = false := by
  decide

/-- C2 (amended): a deny rule applies when its key is exactly `"all"` or
lower-cases to the statement type's lower-casing; the allow set is built
from the entries whose keys are exactly the lower-cased statement type and
exactly `"all"`; missing keys behave as empty sets (the lookup defaults to
the empty list). -/
theorem C2_amended_key_matching (allow deny : List (String × List String))
    (ty : String) (tables ctes : List String) (err : Option String) :
    ((evalStmt allow deny ⟨some ty, tables, ctes, err⟩).denied = true ↔
      ∃ e ∈ deny, (e.1 = "all" ∨ lowerStr e.1 = lowerStr ty) ∧
        ∃ t ∈ tables, t ∉ ctes ∧
          normalize_table_name t ∈ e.2.map normalize_table_name) ∧
    ((evalStmt allow deny ⟨some ty, tables, ctes, err⟩).allowed = true ↔
      ((¬ ∃ e ∈ deny, (e.1 = "all" ∨ lowerStr e.1 = lowerStr ty) ∧
        ∃ t ∈ tables, t ∉ ctes ∧
          normalize_table_name t ∈ e.2.map normalize_table_name) ∧
        ∀ t ∈ tables, t ∉ ctes → normalize_table_name t ∈ allowSet allow ty)) := by
  have hmem : ∀ t : String, t ∈ realTablesOf ⟨some ty, tables, ctes, err⟩ ↔
      t ∈ tables ∧ t ∉ ctes := fun t => mem_pfilter _ _ t
  have hiff : denyMatchList ty (realTablesOf ⟨some ty, tables, ctes, err⟩) deny ≠ [] ↔
      ∃ e ∈ deny, (e.1 = "all" ∨ lowerStr e.1 = lowerStr ty) ∧
        ∃ t ∈ tables, t ∉ ctes ∧
          normalize_table_name t ∈ e.2.map normalize_table_name := by
    rw [denyMatchList_ne_nil_iff]
    constructor
    · rintro ⟨e, he, happ, t, hrt, hm⟩
      obtain ⟨h1, h2⟩ := (hmem t).1 hrt
      exact ⟨e, he, happ, t, h1, h2, hm⟩
    · rintro ⟨e, he, happ, t, h1, h2, hm⟩
      exact ⟨e, he, happ, t, (hmem t).2 ⟨h1, h2⟩, hm⟩
  rw [evalStmt_eq_alt]
  simp only [evalStmtAlt]
  cases hM : last? (denyMatchList ty (realTablesOf ⟨some ty, tables, ctes, err⟩) deny) with
  | some p =>
    have hne : denyMatchList ty (realTablesOf ⟨some ty, tables, ctes, err⟩) deny ≠ [] := by
      intro hnil
      rw [hnil] at hM
      cases hM
    constructor
    · simp only [mkDenied]
      exact ⟨fun _ => hiff.1 hne, fun _ => trivial⟩
    · constructor
      · intro hcon
        cases hcon
      · rintro ⟨hno, _⟩
        exact absurd (hiff.1 hne) hno
  | none =>
    have hnil : denyMatchList ty (realTablesOf ⟨some ty, tables, ctes, err⟩) deny = [] :=
      (last?_eq_none _).1 hM
    have hnod : ¬ ∃ e ∈ deny, (e.1 = "all" ∨ lowerStr e.1 = lowerStr ty) ∧
        ∃ t ∈ tables, t ∉ ctes ∧
          normalize_table_name t ∈ e.2.map normalize_table_name := by
      intro hcon
      exact absurd hnil (by simpa using hiff.2 hcon)
    cases hV : last? (allowViolations allow ty (realTablesOf ⟨some ty, tables, ctes, err⟩)) with
    | some t =>
      have hvmem := last?_mem hV
      obtain ⟨hrt, hnall⟩ := (mem_pfilter _ _ _).1 hvmem
      obtain ⟨h1, h2⟩ := (hmem t).1 hrt
      constructor
      · simp only [mkNotAllowed, baseDecision]
        constructor
        · intro hcon
          cases hcon
        · rintro ⟨e, he, happ, t2, h1b, h2b, hmb⟩
          exact absurd ⟨e, he, happ, t2, h1b, h2b, hmb⟩ hnod
      · simp only [mkNotAllowed, baseDecision]
        constructor
        · intro hcon
          cases hcon
        · rintro ⟨_, hall⟩
          exact absurd (hall t h1 h2) hnall
    | none =>
      have hvnil : allowViolations allow ty (realTablesOf ⟨some ty, tables, ctes, err⟩) = [] :=
        (last?_eq_none _).1 hV
      have hall : ∀ t ∈ tables, t ∉ ctes → normalize_table_name t ∈ allowSet allow ty := by
        intro t h1 h2
        have := (pfilter_eq_nil_iff _ _).1 hvnil t ((hmem t).2 ⟨h1, h2⟩)
        exact not_not.mp this
      constructor
      · simp only [baseDecision]
        constructor
        · intro hcon
          cases hcon
        · rintro ⟨e, he, happ, t2, h1b, h2b, hmb⟩
          exact absurd ⟨e, he, happ, t2, h1b, h2b, hmb⟩ hnod
      · simp only [baseDecision]
        exact ⟨fun _ => ⟨hnod, hall⟩, fun _ => trivial⟩

/-- C2 witness: with the exactly-lowercase allow key the statement is
allowed, via the amended characterization. -/
theorem C2_witness :
    (evalStmt [("select", ["a"])] [] ⟨some "SELECT", ["a"], [], none⟩).allowed = true :=
  ((C2_amended_key_matching [("select", ["a"])] [] "SELECT" ["a"] [] none).2).mpr
    ⟨by decide, by decide⟩

theorem pfilter_of_forall {α : Type} (P : α → Prop) [DecidablePred P]
    (l : List α) (h : ∀ a, P a) : pfilter P l = l := by
  induction l with
  | nil => rfl
  | cons a l ih => simp only [pfilter, if_pos (h a), ih]

/-- C3: CTE aliases are exempt from policy.  The decision fields (`allowed`,
`denied`, `reason`) of a statement's decision are exactly those obtained by
checking only the real tables (the raw set difference `tables − ctes`,
before normalization) with an empty CTE set: a name listed in `ctes` is
never checked, and a name in `tables` but not in `ctes` is checked. -/
theorem C3_cte_exemption (allow deny : List (String × List String))
    (ty : String) (tables ctes : List String) (err : Option String) :
    (evalStmt allow deny ⟨some ty, tables, ctes, err⟩).allowed =
      (evalStmt allow deny
        ⟨some ty, pfilter (fun t => t ∉ ctes) tables, [], err⟩).allowed ∧
    (evalStmt allow deny ⟨some ty, tables, ctes, err⟩).denied =
      (evalStmt allow deny
        ⟨some ty, pfilter (fun t => t ∉ ctes) tables, [], err⟩).denied ∧
    (evalStmt allow deny ⟨some ty, tables, ctes, err⟩).reason =
      (evalStmt allow deny
        ⟨some ty, pfilter (fun t => t ∉ ctes) tables, [], err⟩).reason := by
  rw [evalStmt_eq_alt, evalStmt_eq_alt]
  simp only [evalStmtAlt]
  have hrt : realTablesOf ⟨some ty, pfilter (fun t => t ∉ ctes) tables, [], err⟩ =
      realTablesOf ⟨some ty, tables, ctes, err⟩ := by
    unfold realTablesOf
    exact pfilter_of_forall _ _ (fun a => List.not_mem_nil a)
  rw [hrt]
  cases last? (denyMatchList ty (realTablesOf ⟨some ty, tables, ctes, err⟩) deny) with
  | some p => exact ⟨rfl, rfl, rfl⟩
  | none =>
    cases last? (allowViolations allow ty (realTablesOf ⟨some ty, tables, ctes, err⟩)) with
    | some t => exact ⟨rfl, rfl, rfl⟩
    | none => exact ⟨rfl, rfl, rfl⟩

/-- C3 witness: a denied name used only as a CTE alias is not checked, while
the same policy checks it when it is a real table. -/
theorem C3_witness :
    (evalStmt [] [("all", ["secret"])]
        ⟨some "SELECT", ["other", "secret"], ["secret"], none⟩).allowed =
      (evalStmt [] [("all", ["secret"])]
        ⟨some "SELECT",
          pfilter (fun t => t ∉ (["secret"] : List String)) ["other", "secret"],
          [], none⟩).allowed ∧
    (evalStmt [] [("all", ["secret"])]
        ⟨some "SELECT", ["other", "secret"], ["secret"], none⟩).denied =
      (evalStmt [] [("all", ["secret"])]
        ⟨some "SELECT",
          pfilter (fun t => t ∉ (["secret"] : List String)) ["other", "secret"],
          [], none⟩).denied ∧
    (evalStmt [] [("all", ["secret"])]
        ⟨some "SELECT", ["other", "secret"], ["secret"], none⟩).reason =
      (evalStmt [] [("all", ["secret"])]
        ⟨some "SELECT",
          pfilter (fun t => t ∉ (["secret"] : List String)) ["other", "secret"],
          [], none⟩).reason :=
  C3_cte_exemption [] [("all", ["secret"])] "SELECT" ["other", "secret"] ["secret"] none

/-- C4: Last-match-wins reason aggregation.  Neither pass short-circuits:
when the deny matches of a statement (in evaluation order) end with a match
`p`, the statement's reason is the reason rendered from `p`; when there are
no deny matches and the allow violations end with table `t`, the reason is
the one rendered from `t`; and the batch-level reason is the reason of the
last decision in document order whose `allowed` flag is false. -/
theorem C4_last_match_wins (allow deny : List (String × List String))
    (ty : String) (tables ctes : List String) (err : Option String)
    (stmts : List StmtDescriptor) :
    (∀ p, last? (denyMatchList ty (realTablesOf ⟨some ty, tables, ctes, err⟩) deny) =
        some p →
      (evalStmt allow deny ⟨some ty, tables, ctes, err⟩).reason =
        some (denyReasonStr p.1 p.2)) ∧
    (∀ t, denyMatchList ty (realTablesOf ⟨some ty, tables, ctes, err⟩) deny = [] →
      last? (allowViolations allow ty (realTablesOf ⟨some ty, tables, ctes, err⟩)) =
        some t →
      (evalStmt allow deny ⟨some ty, tables, ctes, err⟩).reason =
        some (allowReasonStr t ty)) ∧
    (∀ d, last? (pfilter (fun x => x.allowed = false)
        ((evalStmts allow deny stmts).details)) = some d →
      (evalStmts allow deny stmts).reason = d.reason) := by
  refine ⟨?_, ?_, ?_⟩
  · intro p hp
    rw [evalStmt_eq_alt]
    simp only [evalStmtAlt, hp]
    rfl
  · intro t h0 hv
    rw [evalStmt_eq_alt]
    have h0l : last? (denyMatchList ty (realTablesOf ⟨some ty, tables, ctes, err⟩) deny) =
        none := (last?_eq_none _).2 h0
    simp only [evalStmtAlt, h0l, hv]
    rfl
  · intro d hd
    rw [evalStmts_details] at hd
    exact evalStmts_reason_of_last allow deny stmts d hd

/-- C4 witness: with several matching deny rules the reason cites the last
one evaluated; with several allow violations the reason cites the last
table; the batch reason is the last violating statement's reason. -/
theorem C4_witness :
    (evalStmt [] [("all", ["a"]), ("select", ["a", "b"])]
        ⟨some "SELECT", ["a", "b"], [], none⟩).reason =
      some (denyReasonStr "select" "b") ∧
    (evalStmt [("select", ["a"])] []
        ⟨some "SELECT", ["a", "b"], [], none⟩).reason =
      some (allowReasonStr "b" "SELECT") ∧
    (evalStmts [] [("all", ["x"])]
        [⟨some "SELECT", [], [], none⟩, ⟨some "SELECT", ["x"], [], none⟩]).reason =
      some (denyReasonStr "all" "x") := by
  refine ⟨?_, ?_, ?_⟩
  · exact (C4_last_match_wins [] [("all", ["a"]), ("select", ["a", "b"])] "SELECT"
      ["a", "b"] [] none []).1 ("select", "b") (by decide)
  · exact (C4_last_match_wins [("select", ["a"])] [] "SELECT" ["a", "b"] [] none []).2.1
      "b" (by decide) (by decide)
  · exact (C4_last_match_wins [] [("all", ["x"])] "SELECT" [] [] none
      [⟨some "SELECT", [], [], none⟩, ⟨some "SELECT", ["x"], [], none⟩]).2.2
      { type := some "SELECT"
        tables := ["x"]
        ctes := []
        allowed := false
        denied := true
        reason := some (denyReasonStr "all" "x") }
      (by decide)

/-- C5: Aggregation.  The details list contains exactly one decision per
input descriptor in input order; the top-level allowed flag is the
conjunction of all per-statement allowed flags; and when every decision is
allowed the top-level reason is exactly "All statements allowed". -/
theorem C5_aggregation (allow deny : List (String × List String))
    (stmts : List StmtDescriptor) :
    (evalStmts allow deny stmts).details = stmts.map (evalStmt allow deny) ∧
    (evalStmts allow deny stmts).allowed =
      ((evalStmts allow deny stmts).details).all (fun d => d.allowed) ∧
    (((evalStmts allow deny stmts).details).all (fun d => d.allowed) = true →
      (evalStmts allow deny stmts).reason = some "All statements allowed") := by
  refine ⟨evalStmts_details allow deny stmts, ?_, ?_⟩
  · rw [evalStmts_details, evalStmts_allowed]
  · intro h
    rw [evalStmts_details] at h
    exact evalStmts_reason_of_all_allowed allow deny stmts h

/-- C5 witness: a batch whose statements are all allowed reports the fixed
success reason, and the conjunction and details shape hold on a concrete
batch. -/
theorem C5_witness :
    (evalStmts [] [] [(⟨some "SELECT", [], [], none⟩ : StmtDescriptor)]).reason =
      some "All statements allowed" :=
  (C5_aggregation [] [] [⟨some "SELECT", [], [], none⟩]).2.2 (by decide)

/-- C6: Parse failure handling.  A failed batch parse yields exactly one
descriptor with the parser's message, no type and empty tables and ctes; the
evaluator turns a descriptor with no type into a decision with
`allowed = false`, `denied = true` and the parser's message as reason,
independently of the policy; and the overall result for the failed batch is
denied with that same reason. -/
theorem C6_parse_failure (allow deny : List (String × List String))
    (msg : String) (tables ctes : List String) :
    extract_sql_info_multi (Except.error msg) =
      [{ type := none, tables := [], ctes := [], error := some msg }] ∧
    evalStmt allow deny ⟨none, tables, ctes, some msg⟩ =
      { type := none
        tables := tables
        ctes := ctes
        allowed := false
        denied := true
        reason := some msg } ∧
    evalStmt allow deny ⟨none, tables, ctes, some msg⟩ =
      evalStmt [] [] ⟨none, tables, ctes, some msg⟩ ∧
    (evalStmts allow deny (extract_sql_info_multi (Except.error msg))).allowed =
      false ∧
    (evalStmts allow deny (extract_sql_info_multi (Except.error msg))).reason =
      some msg := by
  refine ⟨rfl, rfl, rfl, rfl, rfl⟩

/-- C6 witness: concrete failed parse is denied overall with the parser's
message. -/
theorem C6_witness :
    (evalStmts [("select", ["a"])] [("all", ["b"])]
        (extract_sql_info_multi (Except.error "boom"))).reason = some "boom" :=
  (C6_parse_failure [("select", ["a"])] [("all", ["b"])] "boom" [] []).2.2.2.2

/-- C7: Normalization.  For every identifier string the source normalizer
returns the final dot-separated segment, lower-cased, with surrounding
double-quote characters stripped (it equals the spec-stated `normalizeSpec`);
in particular `public."Foo"`, `"FOO"` and `foo` all normalize to `foo`; and
normalization is applied to both sides of every membership comparison: two
policies whose declared table lists have the same normalized images produce
identical decisions. -/
theorem C7_normalization (t : String) :
    normalize_table_name t = normalizeSpec t ∧
    normalize_table_name "public.\"Foo\"" = "foo" ∧
    normalize_table_name "\"FOO\"" = "foo" ∧
    normalize_table_name "foo" = "foo" ∧
    (∀ allow allow2 deny deny2 : List (String × List String),
      ∀ ty : String, ∀ tables ctes : List String, ∀ err : Option String,
      deny2.map (fun e => (e.1, e.2.map normalize_table_name)) =
        deny.map (fun e => (e.1, e.2.map normalize_table_name)) →
      allow2.map (fun e => (e.1, e.2.map normalize_table_name)) =
        allow.map (fun e => (e.1, e.2.map normalize_table_name)) →
      evalStmt allow2 deny2 ⟨some ty, tables, ctes, err⟩ =
        evalStmt allow deny ⟨some ty, tables, ctes, err⟩) := by
  refine ⟨normalize_eq_normalizeSpec t, by decide, by decide, by decide, ?_⟩
  intro allow allow2 deny deny2 ty tables ctes err hd ha
  exact evalStmt_norm_congr allow allow2 deny deny2 ty tables ctes err hd ha

/-- C7 witness: a deny rule declared as `PUBLIC.Foo` and one declared as
`"foo"` normalize identically and produce the same decision. -/
theorem C7_witness :
    evalStmt [] [("all", ["PUBLIC.Foo"])] ⟨some "SELECT", ["foo"], [], none⟩ =
      evalStmt [] [("all", ["\"foo\""])] ⟨some "SELECT", ["foo"], [], none⟩ :=
  (C7_normalization "x").2.2.2.2 [] [] [("all", ["\"foo\""])] [("all", ["PUBLIC.Foo"])]
    "SELECT" ["foo"] [] none (by decide) (by decide)

/-- C8 counterexample: a descriptor with no statement type (the batch parse
failure descriptor) has an empty set of real tables, yet its decision has
`allowed = false`, refuting the claim that every statement with empty real
tables is allowed. -/
theorem C8_counterexample :
    realTablesOf ⟨none, [], [], some "syntax error"⟩ = [] ∧
    (evalStmt [] [] ⟨none, [], [], some "syntax error"⟩).allowed = false := by
  refine ⟨rfl, rfl⟩

/-- C8 (amended): for every statement descriptor that has a statement type
(no parse error) and whose set of real tables is empty, the decision is
`allowed = true`, regardless of the policy's contents. -/
theorem C8_empty_real_tables_allowed (allow deny : List (String × List String))
    (ty : String) (tables ctes : List String) (err : Option String)
    (h : pfilter (fun t => t ∉ ctes) tables = []) :
    (evalStmt allow deny ⟨some ty, tables, ctes, err⟩).allowed = true := by
  rw [evalStmt_eq_alt]
  have hrt : realTablesOf ⟨some ty, tables, ctes, err⟩ = [] := h
  simp only [evalStmtAlt, hrt, denyMatchList_nil]
  rfl

/-- C8 witness: a statement whose only table is its own CTE alias is allowed
even under a policy that denies that very name. -/
theorem C8_witness :
    (evalStmt [] [("all", ["a"])] ⟨some "SELECT", ["a"], ["a"], none⟩).allowed = true :=
  C8_empty_real_tables_allowed [] [("all", ["a"])] "SELECT" ["a"] ["a"] none (by decide)

/-- C9 counterexample: the extractor records `table.name`, the bare
identifier of a table reference, not its verbatim SQL text: for
`public."Foo"` it records `Foo` (original case, but without the schema
qualifier and without the quotes), so the verbatim name is not recorded. -/
theorem C9_counterexample :
    extractStmt ⟨"select", [],
        SqlExpr.node [SqlExpr.node [SqlExpr.table ⟨"", "public", "Foo", true⟩]]⟩ =
      { type := some "SELECT", tables := ["Foo"], ctes := [], error := none } ∧
    verbatimName ⟨"", "public", "Foo", true⟩ = "public.\"Foo\"" ∧
    verbatimName ⟨"", "public", "Foo", true⟩ ∉
      (extractStmt ⟨"select", [],
        SqlExpr.node [SqlExpr.node [SqlExpr.table ⟨"", "public", "Foo", true⟩]]⟩).tables := by
  decide

/-- C9 (amended): the extractor records, for every table reference found
anywhere in the statement tree (however deeply nested), exactly the
reference's bare name in its original case — without schema qualification
and without quote characters: a name is recorded iff it is the `name` field
of some table reference in the tree. -/
theorem C9_extractor_records_bare_names (stmt : SqlStatement) (n : String) :
    n ∈ (extractStmt stmt).tables ↔ ∃ r ∈ findTables stmt.body, r.name = n := by
  simp only [extractStmt]
  rw [mem_sortStrings, List.mem_dedup, List.mem_map]

/-- C9 witness: a nested table reference's bare name is recorded. -/
theorem C9_witness :
    "Bar" ∈ (extractStmt ⟨"delete", [],
        SqlExpr.node [SqlExpr.node [SqlExpr.table ⟨"", "", "Bar", false⟩]]⟩).tables ↔
      ∃ r ∈ findTables (SqlExpr.node
        [SqlExpr.node [SqlExpr.table ⟨"", "", "Bar", false⟩]]), r.name = "Bar" :=
  C9_extractor_records_bare_names
    ⟨"delete", [], SqlExpr.node [SqlExpr.node [SqlExpr.table ⟨"", "", "Bar", false⟩]]⟩
    "Bar"

/-- C10: Implicit guard on missing input.  When the sql field is absent or
the empty string, or when the sql-permissions policy is absent, `process`
returns allowed = false with the corresponding fixed reason and no details
field at all; the policy and the parser are never consulted (both are
universally quantified and absent from the result). -/
theorem C10_missing_input_guards
    (parseFn : String → Except String (List SqlStatement))
    (perms : Option Policy) (s : String) (hs : s ≠ "") :
    process parseFn none perms =
      { allowed := false, details := none, reason := some "No SQL provided" } ∧
    process parseFn (some "") perms =
      { allowed := false, details := none, reason := some "No SQL provided" } ∧
    process parseFn (some s) none =
      { allowed := false
        details := none
        reason := some "No sql-permissions context provided" } := by
  refine ⟨rfl, ?_, ?_⟩
  · simp [process]
  · simp [process, hs]

/-- C10 witness: concrete missing-policy request. -/
theorem C10_witness :
    process (fun _ => Except.error "x") (some "SELECT 1") none =
      { allowed := false
        details := none
        reason := some "No sql-permissions context provided" } :=
  (C10_missing_input_guards (fun _ => Except.error "x") none "SELECT 1"
    (by decide)).2.2

end ValidateSql
